import Mathlib

/-!
Verification of the Entity-Component Scripting Runtime of the 3d-web-editor
repository (the `ComponentSystem` module) against its natural-language
specification.

The JavaScript source is shallowly embedded: each definition below mirrors one
source function of `ComponentSystem` (src/unnamed/part_001, first document) or
one spec-described piece of glue whose implementation is not under src/.
Timestamps (`performance.now()` values, milliseconds) are modelled as rationals.
User script text is opaque to the embedding; its observable compile-time
behaviour (parse failure / evaluation failure / set of defined hooks) is
carried as data on `ScriptCode`, and hook invocations are modelled by
`runHook`, which either returns normally or throws.
-/

abbrev EntityId := Nat

/-! ## Playback clock

`ComponentSystem` fields `scriptStartTime`, `scriptPauseTime`,
`totalPausedTime` (part_001 lines 16-18) and the functions that mutate them
(lines 1006-1099).  `getTime` is `context.time.getTime` (lines 182-189). -/

structure ClockState where
  scriptStartTime : ℚ
  scriptPauseTime : ℚ
  totalPausedTime : ℚ
deriving DecidableEq, Repr

/-- Constructor values of the three clock fields (part_001 lines 16-18). -/
def clockInit : ClockState := ⟨0, 0, 0⟩

/-- `context.time.getTime` (part_001 lines 182-189): returns
`(performance.now() − scriptStartTime − totalPausedTime) / 1000` when
`scriptStartTime` is truthy (non-zero) and `0` otherwise. -/
def getTime (c : ClockState) (now : ℚ) : ℚ :=
  if c.scriptStartTime ≠ 0 then (now - c.scriptStartTime - c.totalPausedTime) / 1000 else 0

/-- Clock part of `startScriptExecution` (part_001 lines 1008-1009):
`scriptStartTime = now`, `totalPausedTime = 0`.  `scriptPauseTime` is not
touched. -/
def startClock (now : ℚ) (c : ClockState) : ClockState :=
  { c with scriptStartTime := now, totalPausedTime := 0 }

/-- `pauseScriptExecution` (part_001 lines 1066-1069): records
`scriptPauseTime = now`. -/
def pauseClock (now : ℚ) (c : ClockState) : ClockState :=
  { c with scriptPauseTime := now }

/-- `resumeScriptExecution` (part_001 lines 1074-1080): if `scriptPauseTime > 0`,
adds `now − scriptPauseTime` to `totalPausedTime` and clears
`scriptPauseTime`. -/
def resumeClock (now : ℚ) (c : ClockState) : ClockState :=
  if 0 < c.scriptPauseTime then
    { c with totalPausedTime := c.totalPausedTime + (now - c.scriptPauseTime),
             scriptPauseTime := 0 }
  else c

/-- Clock part of `resetScriptExecution` (part_001 lines 1087-1089): all three
fields are set to `0`. -/
def resetClock : ClockState := ⟨0, 0, 0⟩

/-! ## Script components and compilation

The `Script` component class (part_001 lines 45-277).  The result of running
the user text through `new Function` and evaluating it is opaque JavaScript;
`CompileOutcome` records the three observable outcomes of that stage as data
on the script text. -/

/-- Behaviour of invoking one user hook: it either returns or throws. -/
inductive HookRes
  | ok
  | throws
deriving DecidableEq, Repr

/-- Invoking a user hook, as a fallible call. -/
def runHook : HookRes → Except Unit Unit
  | .ok => .ok ()
  | .throws => .error ()

/-- The three optional lifecycle hooks a compiled script exposes. -/
structure Hooks where
  start : Option HookRes
  update : Option HookRes
  onDestroy : Option HookRes
deriving DecidableEq, Repr

/-- Observable behaviour of compiling a script text:
`parseError` — `new Function` (or context creation) throws, before
`this.scriptInstance` is assigned (part_001 lines 68-79);
`evalError`  — `scriptFunction.call` throws, after `this.scriptInstance` was
assigned its fresh value (lines 82-91);
`ok hooks`   — evaluation succeeds and defines `hooks` (lines 94-102). -/
inductive CompileOutcome
  | parseError
  | evalError
  | ok (hooks : Hooks)
deriving DecidableEq, Repr

/-- A script text together with its compile-time behaviour. -/
structure ScriptCode where
  text : String
  outcome : CompileOutcome
deriving DecidableEq, Repr

/-- A compiled script instance: the extracted hooks plus the `context.time`
fields the update loop mutates (`time.time`, `time.deltaTime`). -/
structure ScriptInstance where
  hooks : Hooks
  timeTime : ℚ
  timeDelta : ℚ
deriving DecidableEq, Repr

/-- The instance assigned at part_001 lines 82-88, before evaluation: all
three hooks are null; the context starts with `time.time = 0`,
`time.deltaTime = 0.016` (lines 178-180). -/
def freshInstance : ScriptInstance := ⟨⟨none, none, none⟩, 0, 16/1000⟩

/-- The `Script` component (part_001 lines 46-57). -/
structure ScriptComponent where
  entity : EntityId
  scriptName : String
  scriptCode : ScriptCode
  enabled : Bool
  scriptInstance : Option ScriptInstance
deriving DecidableEq, Repr

/-- `Script.compileScript` (part_001 lines 65-109).  The whole body is inside
`try { ... } catch { console.error }`, so the function itself never throws:
- a parse-stage error happens before `this.scriptInstance = {...}` executes,
  so `scriptInstance` keeps its previous value;
- an evaluation-stage error happens after that assignment and before hook
  extraction, so `scriptInstance` is the fresh all-null-hook instance;
- on success the hooks defined by the text are extracted into the instance. -/
def compileScript (sc : ScriptComponent) : ScriptComponent :=
  match sc.scriptCode.outcome with
  | .parseError => sc
  | .evalError => { sc with scriptInstance := some freshInstance }
  | .ok h => { sc with scriptInstance := some { freshInstance with hooks := h } }

/-- The `Script` constructor (part_001 lines 46-57): fields are initialised,
`scriptInstance = null`, and `compileScript` runs iff `scriptCode` or
`scriptName` is a non-empty (truthy) string. -/
def scriptNew (entity : EntityId) (scriptName : String) (scriptCode : ScriptCode)
    (enabled : Bool) : ScriptComponent :=
  let sc : ScriptComponent := ⟨entity, scriptName, scriptCode, enabled, none⟩
  if scriptCode.text ≠ "" ∨ scriptName ≠ "" then compileScript sc else sc

/-- `Script.setScript` (part_001 lines 59-63): overwrite name and code, then
recompile. -/
def setScript (sc : ScriptComponent) (name : String) (code : ScriptCode) : ScriptComponent :=
  compileScript { sc with scriptName := name, scriptCode := code }

/-- `Script.update` (part_001 lines 210-256).  Besides the component it needs
the current editor mode string, whether the entity's scene object is present
(`editor.sceneManager.objects.get(this.entity)`), the global clock and the
current timestamp (for `time.getTime()`), and the tick delta.  Returns the
component with its context-time fields refreshed and whether the user `update`
hook was invoked.  The only fallible step, the hook call, is wrapped in
`try { ... } catch` (lines 246-252), so every path returns normally. -/
def scriptUpdate (editorMode : String) (objectPresent : Bool) (c : ClockState)
    (now dt : ℚ) (sc : ScriptComponent) : Except Unit (ScriptComponent × Bool) :=
  if ¬ sc.enabled then .ok (sc, false) else
  match sc.scriptInstance with
  | none => .ok (sc, false)
  | some inst =>
    if editorMode ≠ "play" then .ok (sc, false) else
    let inst1 := { inst with timeDelta := dt, timeTime := getTime c now }
    let sc1 := { sc with scriptInstance := some inst1 }
    if ¬ objectPresent then .ok (sc1, false) else
    match inst1.hooks.update with
    | none => .ok (sc1, false)
    | some h =>
      match runHook h with
      | .ok _ => .ok (sc1, true)
      | .error _ => .ok (sc1, true)

/-! ## Theorems for claims C2 and C3 (playback clock) -/

/-- Claim C2, as stated by the spec, is false: the elapsed value is NOT frozen
while paused.  Concrete run: play at 1000, pause at 2000; querying the elapsed
value at 2500 gives 3/2 but at 3000 gives 2 — two different values at query
times strictly between the pause and any subsequent resume. -/
theorem c2_counterexample :
    getTime (pauseClock 2000 (startClock 1000 clockInit)) 2500 = 3/2 ∧
    getTime (pauseClock 2000 (startClock 1000 clockInit)) 3000 = 2 ∧
    (3/2 : ℚ) ≠ 2 := by
  refine ⟨?_, ?_, by norm_num⟩ <;> norm_num [getTime, pauseClock, startClock, clockInit]

/-- Claim C2 (amended): for any fixed clock state — hence throughout any
interval in which no transition fires, in particular while Playing — the
elapsed value `getTime` is non-decreasing in the query time.  While Paused the
value keeps advancing with wall-clock time rather than freezing; instead, the
resume transition adds the whole pause duration to `totalPausedTime`, so the
elapsed value at the instant of resume equals its value at the instant of
pause (the pause interval is excluded retroactively). -/
theorem c2_amended :
    (∀ (c : ClockState) (t1 t2 : ℚ), t1 ≤ t2 → getTime c t1 ≤ getTime c t2) ∧
    (∀ (c : ClockState) (tp tr : ℚ), 0 < tp →
      getTime (resumeClock tr (pauseClock tp c)) tr = getTime c tp) := by
  constructor
  · intro c t1 t2 h
    unfold getTime
    split
    · apply div_le_div_of_nonneg_right _ (by norm_num)
      linarith
    · exact le_refl 0
  · intro c tp tr hp
    simp only [resumeClock, pauseClock, hp, if_pos]
    unfold getTime
    split <;> [ring_nf; rfl]

/-- Witness for `c2_amended` at concrete inputs. -/
theorem c2_amended_witness :
    getTime (pauseClock 2000 (startClock 1000 clockInit)) 2500 ≤
      getTime (pauseClock 2000 (startClock 1000 clockInit)) 3000 ∧
    getTime (resumeClock 4000 (pauseClock 2000 (startClock 1000 clockInit))) 4000 =
      getTime (startClock 1000 clockInit) 2000 :=
  ⟨c2_amended.1 _ 2500 3000 (by norm_num),
   c2_amended.2 (startClock 1000 clockInit) 2000 4000 (by norm_num)⟩

/-- Claim C3: play records `scriptStartTime = now` and resets
`totalPausedTime = 0`; resume adds `now − scriptPauseTime` to
`totalPausedTime`; consequently, for the run play@t0, pause@t1, resume@t2,
query@t3 the reported elapsed time is `((t1 − t0) + (t3 − t2)) / 1000` — the
real time spanned by the two playing intervals only, independent of the pause
duration `t2 − t1`. -/
theorem c3_pause_exclusion (t0 t1 t2 t3 : ℚ)
    (h0 : 0 < t0) (h01 : t0 ≤ t1) (h12 : t1 ≤ t2) (h23 : t2 ≤ t3) :
    (startClock t0 clockInit).scriptStartTime = t0 ∧
    (startClock t0 clockInit).totalPausedTime = 0 ∧
    (resumeClock t2 (pauseClock t1 (startClock t0 clockInit))).totalPausedTime =
      (pauseClock t1 (startClock t0 clockInit)).totalPausedTime + (t2 - t1) ∧
    getTime (resumeClock t2 (pauseClock t1 (startClock t0 clockInit))) t3 =
      ((t1 - t0) + (t3 - t2)) / 1000 := by
  have hp : (0 : ℚ) < t1 := lt_of_lt_of_le h0 h01
  refine ⟨rfl, rfl, ?_, ?_⟩
  · simp [resumeClock, pauseClock, startClock, clockInit, hp]
  · have hs : t0 ≠ 0 := ne_of_gt h0
    simp only [resumeClock, pauseClock, startClock, clockInit, hp, if_pos]
    unfold getTime
    simp only [hs, ne_eq, not_false_iff, if_true]
    ring_nf

/-- Witness for `c3_pause_exclusion`: play@1000, pause@3000, resume@8000,
query@9000 reports (2000 + 1000)/1000 = 3 seconds, excluding the 5000 ms
pause. -/
theorem c3_pause_exclusion_witness :
    getTime (resumeClock 8000 (pauseClock 3000 (startClock 1000 clockInit))) 9000 = 3 := by
  have h := (c3_pause_exclusion 1000 3000 8000 9000 (by norm_num) (by norm_num)
    (by norm_num) (by norm_num)).2.2.2
  rw [h]; norm_num

/-! ## Theorems for claim C1 (compilation failure policy) -/

/-- A script text that parses but throws while being evaluated. -/
def evalThrowingCode : ScriptCode := ⟨"throw new Error(1)", .evalError⟩

/-- A syntactically invalid script text. -/
def parseFailingCode : ScriptCode := ⟨"function update( ,", .parseError⟩

/-- A script text that compiles and defines all three hooks. -/
def goodCode : ScriptCode :=
  ⟨"function update() {}", .ok ⟨some .ok, some .ok, some .ok⟩⟩

/-- Claim C1, as stated, is false: compilation failure does not always leave
`scriptInstance = null`.  (1) A first compile whose text parses but throws
during evaluation leaves `scriptInstance` equal to the already-assigned fresh
instance, not null.  (2) A recompile via `setScript` with a syntactically
invalid text leaves the previous compiled instance in place, not null. -/
theorem c1_counterexample :
    (scriptNew 1 "s" evalThrowingCode true).scriptInstance ≠ none ∧
    (setScript (scriptNew 1 "s" goodCode true) "s2" parseFailingCode).scriptInstance =
      (scriptNew 1 "s" goodCode true).scriptInstance ∧
    (scriptNew 1 "s" goodCode true).scriptInstance ≠ none := by
  refine ⟨?_, ?_, ?_⟩ <;>
    simp [scriptNew, setScript, compileScript, evalThrowingCode, parseFailingCode, goodCode]

/-- Claim C1 (amended): any error raised while parsing or evaluating script
text is caught at the compile boundary (`compileScript` always returns), but
the resulting `scriptInstance` depends on the failure stage:
- a parse-stage error leaves `scriptInstance` unchanged — null on a first
  compile (in particular, a `Script` constructed with unparsable text has a
  null instance), the previous instance on a recompile via `setScript`;
- an evaluation-stage error leaves `scriptInstance` equal to the fresh
  instance whose three hooks are all null.
In every failure case no hook extracted from the failing text is installed,
and a component whose `scriptInstance` is null has a no-op `update` that
returns normally (no exception reaches the scheduler). -/
theorem c1_amended (sc : ScriptComponent) :
    (sc.scriptCode.outcome = .parseError →
      (compileScript sc).scriptInstance = sc.scriptInstance) ∧
    (∀ (e : EntityId) (n : String) (en : Bool) (code : ScriptCode),
      code.outcome = .parseError → code.text ≠ "" →
      (scriptNew e n code en).scriptInstance = none) ∧
    (sc.scriptCode.outcome = .evalError →
      (compileScript sc).scriptInstance = some freshInstance ∧
      freshInstance.hooks = ⟨none, none, none⟩) ∧
    (∀ (mode : String) (op : Bool) (c : ClockState) (now dt : ℚ),
      sc.scriptInstance = none →
      scriptUpdate mode op c now dt sc = .ok (sc, false)) := by
  refine ⟨?_, ?_, ?_, ?_⟩
  · intro h; simp [compileScript, h]
  · intro e n en code hout htext
    simp [scriptNew, htext, compileScript, hout]
  · intro h; exact ⟨by simp [compileScript, h], rfl⟩
  · intro mode op c now dt hnone
    unfold scriptUpdate
    rw [hnone]
    by_cases he : sc.enabled <;> simp [he]

/-- Witness for `c1_amended` at concrete inputs. -/
theorem c1_amended_witness :
    (compileScript ⟨1, "s", parseFailingCode, true, none⟩).scriptInstance = none ∧
    (scriptNew 1 "s" parseFailingCode true).scriptInstance = none ∧
    (compileScript ⟨1, "s", evalThrowingCode, true, none⟩).scriptInstance =
      some freshInstance ∧
    scriptUpdate "play" true clockInit 5 1 ⟨1, "s", parseFailingCode, true, none⟩ =
      .ok (⟨1, "s", parseFailingCode, true, none⟩, false) := by
  refine ⟨?_, ?_, ?_, ?_⟩
  · exact (c1_amended ⟨1, "s", parseFailingCode, true, none⟩).1 rfl
  · exact (c1_amended ⟨1, "s", parseFailingCode, true, none⟩).2.1 1 "s" true
      parseFailingCode rfl (by decide)
  · exact ((c1_amended ⟨1, "s", evalThrowingCode, true, none⟩).2.2.1 rfl).1
  · exact (c1_amended ⟨1, "s", parseFailingCode, true, none⟩).2.2.2 "play" true
      clockInit 5 1 rfl

/-! ## Play / stop transitions over script components (claims C6 and C7)

`startScriptExecution` (part_001 lines 1006-1039), `stopScriptExecution`
(lines 1044-1061) and `resetScriptExecution` (lines 1085-1099) iterate over
`entityComponents` and act on each entity's `Script` component, if any.  The
store is modelled here as the list of entities paired with their optional
`Script` component, in iteration order. -/

abbrev ScriptStore := List (EntityId × Option ScriptComponent)

/-- Result of `startScriptExecution`: the updated clock, the updated
components (context times reset), the entities whose `start` hook was invoked,
and among those the entities whose `start` threw (error caught and logged). -/
structure StartResult where
  clock : ClockState
  entities : ScriptStore
  invoked : List EntityId
  failed : List EntityId
deriving DecidableEq, Repr

/-- Per-entity body of the `startScriptExecution` loop (part_001 lines
1014-1036): if the entity has a `Script` component with a non-null instance,
reset its context time fields, then — regardless of `enabled` — invoke its
`start` hook if it has one, catching any exception. -/
def startEntity (p : EntityId × Option ScriptComponent) :
    (EntityId × Option ScriptComponent) × List EntityId × List EntityId :=
  match p with
  | (e, some sc) =>
    match sc.scriptInstance with
    | some inst =>
      let inst1 := { inst with timeTime := 0, timeDelta := 0 }
      let sc1 := { sc with scriptInstance := some inst1 }
      match inst1.hooks.start with
      | some h =>
        match runHook h with
        | .ok _ => ((e, some sc1), [e], [])
        | .error _ => ((e, some sc1), [e], [e])
      | none => ((e, some sc1), [], [])
    | none => ((e, some sc), [], [])
  | (e, none) => ((e, none), [], [])

/-- Loop of `startScriptExecution` over all entities. -/
def startRun : ScriptStore → ScriptStore × List EntityId × List EntityId
  | [] => ([], [], [])
  | p :: rest =>
    let r := startEntity p
    let rr := startRun rest
    (r.1 :: rr.1, r.2.1 ++ rr.2.1, r.2.2 ++ rr.2.2)

/-- `startScriptExecution` (part_001 lines 1006-1039): set
`scriptStartTime = now`, `totalPausedTime = 0`, then run the per-entity start
loop. -/
def startScriptExecution (now : ℚ) (c : ClockState) (ents : ScriptStore) : StartResult :=
  let r := startRun ents
  ⟨startClock now c, r.1, r.2.1, r.2.2⟩

/-- Per-entity body of the `stopScriptExecution` loop (part_001 lines
1048-1060): if the entity's `Script` component has a non-null instance with an
`onDestroy` hook, invoke it, catching any exception.  Returns (invoked,
failed). -/
def stopEntity (p : EntityId × Option ScriptComponent) : List EntityId × List EntityId :=
  match p with
  | (e, some sc) =>
    match sc.scriptInstance with
    | some inst =>
      match inst.hooks.onDestroy with
      | some h =>
        match runHook h with
        | .ok _ => ([e], [])
        | .error _ => ([e], [e])
      | none => ([], [])
    | none => ([], [])
  | (_, none) => ([], [])

/-- `stopScriptExecution` (part_001 lines 1044-1061). -/
def stopScriptExecution : ScriptStore → List EntityId × List EntityId
  | [] => ([], [])
  | p :: rest =>
    let r := stopEntity p
    let rr := stopScriptExecution rest
    (r.1 ++ rr.1, r.2 ++ rr.2)

/-- Context-time reset of `resetScriptExecution` (part_001 lines 1092-1098). -/
def resetEntityTimes (p : EntityId × Option ScriptComponent) :
    EntityId × Option ScriptComponent :=
  match p with
  | (e, some sc) =>
    match sc.scriptInstance with
    | some inst =>
      (e, some { sc with scriptInstance := some { inst with timeTime := 0, timeDelta := 0 } })
    | none => (e, some sc)
  | (e, none) => (e, none)

/-- `resetScriptExecution` (part_001 lines 1085-1099): zero the three clock
fields and the `time` fields of every script context. -/
def resetScriptExecution (ents : ScriptStore) : ClockState × ScriptStore :=
  (resetClock, ents.map resetEntityTimes)

/-- Result of the stop transition. -/
structure StopResult where
  clock : ClockState
  entities : ScriptStore
  invoked : List EntityId
  failed : List EntityId
deriving DecidableEq, Repr

/-- Modelled from the spec: the `Playing|Paused → Stopped` ("stop") transition.
The editor-side handler that the stop button reaches (`EditorCore.stopScene`)
is not under src/ — only its caller in UIManager is — so its sequencing is
taken from spec section 4.4: invoke `onDestroy()` on every script instance
(`stopScriptExecution`), then reset the clock fields to zero
(`resetScriptExecution`).  Both component functions are from the source. -/
def stopTransition (c : ClockState) (ents : ScriptStore) : StopResult :=
  let r := stopScriptExecution ents
  let rr := resetScriptExecution ents
  ⟨rr.1, rr.2, r.1, r.2⟩

/-! ## Theorems for claims C6 and C7 -/

/-- A `Script` component that the start loop is eligible to call: a non-null
compiled instance exposing a `start` hook.  Note this does not consult
`enabled`. -/
def startEligible (p : EntityId × Option ScriptComponent) : Option EntityId :=
  match p with
  | (e, some sc) =>
    match sc.scriptInstance with
    | some inst => if inst.hooks.start.isSome then some e else none
    | none => none
  | (_, none) => none

theorem startRun_invoked (ents : ScriptStore) :
    (startRun ents).2.1 = ents.filterMap startEligible := by
  induction ents with
  | nil => rfl
  | cons p rest ih =>
    obtain ⟨e, osc⟩ := p
    match osc with
    | none => simp [startRun, startEntity, startEligible, ih]
    | some sc =>
      match hsi : sc.scriptInstance with
      | none => simp [startRun, startEntity, startEligible, hsi, ih]
      | some inst =>
        match hst : inst.hooks.start with
        | none => simp [startRun, startEntity, startEligible, hsi, hst, ih]
        | some h =>
          cases h <;>
            simp [startRun, startEntity, startEligible, hsi, hst, runHook, ih]

/-- A disabled `Script` component with a compiled instance exposing a `start`
hook. -/
def disabledScript : ScriptComponent :=
  ⟨1, "s", ⟨"function start() {}", .ok ⟨some .ok, none, none⟩⟩, false,
   some ⟨⟨some .ok, none, none⟩, 0, 16/1000⟩⟩

/-- Claim C6, as stated, is false on the skip condition: `startScriptExecution`
never consults the `enabled` flag, so a disabled `Script` component with a
compiled instance still has its `start()` invoked on the play transition. -/
theorem c6_counterexample :
    disabledScript.enabled = false ∧
    (startScriptExecution 5 clockInit [(1, some disabledScript)]).invoked = [1] := by
  constructor
  · rfl
  · rfl

/-- Claim C6 (amended): on the play transition, `start()` is invoked exactly
once per entity entry whose `Script` component has a non-null compiled
instance exposing a `start` hook — components with a null `scriptInstance` are
skipped, but the `enabled` flag is NOT consulted.  The invoked list is
characterised by `startEligible`, which depends neither on `enabled` nor on
whether any hook throws: an exception from one script's `start()` (caught in
the per-entity try/catch) does not prevent the remaining scripts' `start()`
calls.  The transition also records `scriptStartTime = now` and resets
`totalPausedTime = 0`. -/
theorem c6_amended (now : ℚ) (c : ClockState) (ents : ScriptStore) :
    (startScriptExecution now c ents).invoked = ents.filterMap startEligible ∧
    (startScriptExecution now c ents).clock = startClock now c :=
  ⟨startRun_invoked ents, rfl⟩

/-- A `Script` component whose compiled instance exposes an `onDestroy` hook
eligible for the stop loop. -/
def destroyEligible (p : EntityId × Option ScriptComponent) : Option EntityId :=
  match p with
  | (e, some sc) =>
    match sc.scriptInstance with
    | some inst => if inst.hooks.onDestroy.isSome then some e else none
    | none => none
  | (_, none) => none

theorem stopScriptExecution_invoked (ents : ScriptStore) :
    (stopScriptExecution ents).1 = ents.filterMap destroyEligible := by
  induction ents with
  | nil => rfl
  | cons p rest ih =>
    obtain ⟨e, osc⟩ := p
    match osc with
    | none => simp [stopScriptExecution, stopEntity, destroyEligible, ih]
    | some sc =>
      match hsi : sc.scriptInstance with
      | none => simp [stopScriptExecution, stopEntity, destroyEligible, hsi, ih]
      | some inst =>
        match hst : inst.hooks.onDestroy with
        | none => simp [stopScriptExecution, stopEntity, destroyEligible, hsi, hst, ih]
        | some h =>
          cases h <;>
            simp [stopScriptExecution, stopEntity, destroyEligible, hsi, hst, runHook, ih]

/-- Claim C7: on the stop transition, `onDestroy()` is invoked on exactly the
`Script` components whose compiled instance exposes one (characterised by
`destroyEligible`, which is independent of whether any hook throws — each call
sits in its own try/catch, so errors are logged, not raised), and afterwards
the clock fields `scriptStartTime`, `scriptPauseTime`, `totalPausedTime` are
all reset to zero, so any subsequent elapsed-time query returns 0. -/
theorem c7_stop_transition (c : ClockState) (ents : ScriptStore) (now : ℚ) :
    (stopTransition c ents).invoked = ents.filterMap destroyEligible ∧
    (stopTransition c ents).clock = resetClock ∧
    getTime (stopTransition c ents).clock now = 0 :=
  ⟨stopScriptExecution_invoked ents, rfl, by simp [stopTransition, resetScriptExecution, getTime, resetClock]⟩

/-! ## Update scheduler tick (claims C4 and C5)

`updateComponents` (part_001 lines 959-1001) iterates `entityComponents`
(entity id → component-name → component) and calls `component.update(deltaTime)`
subject to the editor mode.  For this dispatch the only relevant facts about a
component are whether it has an `update` function and whether calling it
throws; `TickComponent` carries exactly that.  The source has no try/catch
around the calls, and a throw inside a JavaScript `Map.forEach` callback
propagates, aborting the whole iteration. -/

/-- Behaviour of one component's `update(deltaTime)` call. -/
inductive UpdRes
  | ok
  | throws
deriving DecidableEq, Repr

/-- A component as seen by the update dispatch: `upd = none` means no `update`
function; `some r` means an `update` function behaving as `r`. -/
structure TickComponent where
  upd : Option UpdRes
deriving DecidableEq, Repr

/-- The store as iterated by `updateComponents`: entities in insertion order,
each with its components in insertion order. -/
abbrev TickStore := List (EntityId × List (String × TickComponent))

/-- The call condition of `updateComponents` (part_001 lines 970-1000): in
`'play'` mode every component with an `update` function is called (line 974);
in `'pause'` mode and in every other mode, every component except `'Script'`
with an `update` function is called (lines 986, 995 — the two branches are
textually identical). -/
def tickCallCond (mode : String) (name : String) (c : TickComponent) : Bool :=
  if mode = "play" then c.upd.isSome
  else decide (name ≠ "Script") && c.upd.isSome

/-- Inner `components.forEach` loop of `updateComponents` for one entity:
returns the names whose `update` was called, in order, and whether the loop
ran to completion (`false` when a call threw, aborting the iteration). -/
def updateCompsInner (mode : String) : List (String × TickComponent) → List String × Bool
  | [] => ([], true)
  | (n, comp) :: rest =>
    if tickCallCond mode n comp then
      match comp.upd with
      | some .throws => ([n], false)
      | _ =>
        let r := updateCompsInner mode rest
        (n :: r.1, r.2)
    else updateCompsInner mode rest

/-- Outer `entityComponents.forEach` loop of `updateComponents`: a throw in
one entity's inner loop propagates and aborts the remaining entities too. -/
def updateComponentsTick (mode : String) : TickStore → List (EntityId × String) × Bool
  | [] => ([], true)
  | (e, comps) :: rest =>
    let r := updateCompsInner mode comps
    if r.2 then
      let rr := updateComponentsTick mode rest
      (r.1.map (fun n => (e, n)) ++ rr.1, rr.2)
    else (r.1.map (fun n => (e, n)), false)

theorem updateCompsInner_noThrow (mode : String) (comps : List (String × TickComponent))
    (h : ∀ q ∈ comps, q.2.upd ≠ some UpdRes.throws) :
    updateCompsInner mode comps =
      ((comps.filter (fun q => tickCallCond mode q.1 q.2)).map Prod.fst, true) := by
  induction comps with
  | nil => rfl
  | cons q rest ih =>
    obtain ⟨n, comp⟩ := q
    have hq : comp.upd ≠ some UpdRes.throws := h (n, comp) (List.mem_cons_self _ _)
    have hrest : ∀ q ∈ rest, q.2.upd ≠ some UpdRes.throws :=
      fun q hmem => h q (List.mem_cons_of_mem _ hmem)
    by_cases hc : tickCallCond mode n comp
    · match hu : comp.upd with
      | none => simp [updateCompsInner, hc, hu, ih hrest, List.filter_cons]
      | some .ok => simp [updateCompsInner, hc, hu, ih hrest, List.filter_cons]
      | some .throws => exact absurd hu hq
    · simp [updateCompsInner, hc, ih hrest, List.filter_cons]

theorem updateComponentsTick_noThrow (mode : String) (store : TickStore)
    (h : ∀ p ∈ store, ∀ q ∈ p.2, q.2.upd ≠ some UpdRes.throws) :
    updateComponentsTick mode store =
      ((store.map (fun p =>
          ((p.2.filter (fun q => tickCallCond mode q.1 q.2)).map
            (fun q => (p.1, q.1))))).flatten, true) := by
  induction store with
  | nil => rfl
  | cons p rest ih =>
    obtain ⟨e, comps⟩ := p
    have hinner := updateCompsInner_noThrow mode comps
      (fun q hq => h (e, comps) (List.mem_cons_self _ _) q hq)
    have hrest := ih (fun p hp => h p (List.mem_cons_of_mem _ hp))
    simp [updateComponentsTick, hinner, hrest, Function.comp]

/-- Claim C4: on a tick with no component throwing, a component's `update` is
called exactly when it has an `update` function and either the mode is
`'play'` (Playing: all component types including Script) or the component is
not named `'Script'` (any non-play mode — Paused `'pause'` or Stopped: every
type except Script, which receives no call). -/
theorem c4_mode_dispatch (mode : String) (store : TickStore)
    (h : ∀ p ∈ store, ∀ q ∈ p.2, q.2.upd ≠ some UpdRes.throws)
    (e : EntityId) (n : String) :
    (e, n) ∈ (updateComponentsTick mode store).1 ↔
      ∃ comps c, (e, comps) ∈ store ∧ (n, c) ∈ comps ∧ c.upd.isSome = true ∧
        (mode = "play" ∨ n ≠ "Script") := by
  rw [updateComponentsTick_noThrow mode store h]
  simp only [List.mem_flatten, List.mem_map, List.mem_filter]
  constructor
  · rintro ⟨l, ⟨⟨e', comps⟩, hpmem, rfl⟩, hmem⟩
    simp only [List.mem_map, List.mem_filter] at hmem
    obtain ⟨⟨n', c⟩, ⟨hqmem, hcond⟩, heq⟩ := hmem
    obtain ⟨he, hn⟩ := Prod.mk.injEq .. ▸ heq
    subst he; subst hn
    refine ⟨comps, c, hpmem, hqmem, ?_⟩
    unfold tickCallCond at hcond
    by_cases hm : mode = "play"
    · simpa [hm] using hcond
    · simp only [hm, if_false, Bool.and_eq_true, decide_eq_true_eq] at hcond
      exact ⟨hcond.2, Or.inr hcond.1⟩
  · rintro ⟨comps, c, hpmem, hqmem, hupd, hmode⟩
    refine ⟨(comps.filter (fun q => tickCallCond mode q.1 q.2)).map (fun q => (e, q.1)),
      ⟨(e, comps), hpmem, rfl⟩, ?_⟩
    simp only [List.mem_map, List.mem_filter]
    refine ⟨(n, c), ⟨hqmem, ?_⟩, rfl⟩
    unfold tickCallCond
    rcases hmode with hm | hn
    · simp [hm, hupd]
    · by_cases hm : mode = "play" <;> simp [hm, hupd, hn]

/-- Witness for `c4_mode_dispatch`: in `'pause'` mode, with one entity holding
a Script and a Collider (both with non-throwing update functions), the
Collider's `update` is called while the Script receives no call. -/
theorem c4_mode_dispatch_witness :
    (1, "Collider") ∈ (updateComponentsTick "pause"
      [(1, [("Script", ⟨some UpdRes.ok⟩), ("Collider", ⟨some UpdRes.ok⟩)])]).1 ∧
    (1, "Script") ∉ (updateComponentsTick "pause"
      [(1, [("Script", ⟨some UpdRes.ok⟩), ("Collider", ⟨some UpdRes.ok⟩)])]).1 := by
  constructor
  · exact (c4_mode_dispatch "pause"
      [(1, [("Script", ⟨some UpdRes.ok⟩), ("Collider", ⟨some UpdRes.ok⟩)])]
      (by decide) 1 "Collider").mpr
      ⟨[("Script", ⟨some UpdRes.ok⟩), ("Collider", ⟨some UpdRes.ok⟩)],
       ⟨some UpdRes.ok⟩, by decide, by decide, by decide, Or.inr (by decide)⟩
  · intro hmem
    have := (c4_mode_dispatch "pause"
      [(1, [("Script", ⟨some UpdRes.ok⟩), ("Collider", ⟨some UpdRes.ok⟩)])]
      (by decide) 1 "Script").mp hmem
    obtain ⟨comps, c, hp, hq, hu, hmode⟩ := this
    rcases hmode with hm | hn
    · exact absurd hm (by decide)
    · exact hn rfl

/-- Claim C5, as stated, is false: `updateComponents` has no try/catch, so an
error thrown inside one component's `update` aborts the remaining components'
updates in that tick.  Concrete tick in `'play'` mode: entity 1 has components
A (whose update throws) then B; A is called, the tick aborts, and B's update
is never called. -/
theorem c5_counterexample :
    updateComponentsTick "play"
      [(1, [("A", ⟨some UpdRes.throws⟩), ("B", ⟨some UpdRes.ok⟩)])] =
      ([(1, "A")], false) ∧
    (1, "B") ∉ (updateComponentsTick "play"
      [(1, [("A", ⟨some UpdRes.throws⟩), ("B", ⟨some UpdRes.ok⟩)])]).1 := by
  constructor
  · rfl
  · decide

/-- Claim C5 (amended): error isolation exists only inside the Script
component.  (1) `Script.update` wraps the user update hook in its own
try/catch, so it returns normally whatever the hook does — a script hook error
never propagates to the scheduler.  (2) `updateComponents` itself has no
try/catch: if a component whose call condition holds has a throwing `update`,
the tick's call trace ends with that component and every later component (in
the same entity or later entities) receives no call. -/
theorem c5_amended :
    (∀ (mode : String) (op : Bool) (c : ClockState) (now dt : ℚ)
      (sc : ScriptComponent), (scriptUpdate mode op c now dt sc).isOk = true) ∧
    (∀ (mode : String) (l1 l2 : List (String × TickComponent)) (n : String)
      (comp : TickComponent) (tr1 : List String),
      updateCompsInner mode l1 = (tr1, true) →
      comp.upd = some UpdRes.throws →
      tickCallCond mode n comp = true →
      updateCompsInner mode (l1 ++ (n, comp) :: l2) = (tr1 ++ [n], false)) := by
  constructor
  · intro mode op c now dt sc
    unfold scriptUpdate
    repeat' split
    all_goals try rfl
    all_goals (dsimp only; repeat' split)
    all_goals rfl
  · intro mode l1 l2 n comp tr1 h1 hthrow hcond
    induction l1 generalizing tr1 with
    | nil =>
      have ha : ([] : List String) = tr1 := congrArg Prod.fst h1
      subst ha
      simp [updateCompsInner, hcond, hthrow]
    | cons q rest ih =>
      obtain ⟨n0, c0⟩ := q
      by_cases hc0 : tickCallCond mode n0 c0
      · match hu : c0.upd with
        | some .throws =>
          simp only [updateCompsInner, if_pos hc0, hu] at h1
          exact absurd (congrArg Prod.snd h1) (by simp)
        | some .ok =>
          rcases hr : updateCompsInner mode rest with ⟨tr, okk⟩
          simp only [updateCompsInner, if_pos hc0, hu, hr] at h1
          have ha : n0 :: tr = tr1 := congrArg Prod.fst h1
          have hb : okk = true := congrArg Prod.snd h1
          subst hb
          have h3 := ih tr hr
          subst ha
          simp [updateCompsInner, hc0, hu, h3]
        | none =>
          rcases hr : updateCompsInner mode rest with ⟨tr, okk⟩
          simp only [updateCompsInner, if_pos hc0, hu, hr] at h1
          have ha : n0 :: tr = tr1 := congrArg Prod.fst h1
          have hb : okk = true := congrArg Prod.snd h1
          subst hb
          have h3 := ih tr hr
          subst ha
          simp [updateCompsInner, hc0, hu, h3]
      · simp only [updateCompsInner, if_neg hc0] at h1
        have h3 := ih _ h1
        simp [updateCompsInner, hc0, h3]

/-- Witness for `c5_amended` at concrete inputs. -/
theorem c5_amended_witness :
    (scriptUpdate "play" true clockInit 5 1 disabledScript).isOk = true ∧
    updateCompsInner "play"
      [("A", ⟨some UpdRes.ok⟩), ("B", ⟨some UpdRes.throws⟩), ("C", ⟨some UpdRes.ok⟩)] =
      (["A", "B"], false) := by
  constructor
  · exact c5_amended.1 "play" true clockInit 5 1 disabledScript
  · have h := c5_amended.2 "play" [("A", ⟨some UpdRes.ok⟩)]
      [("C", ⟨some UpdRes.ok⟩)] "B" ⟨some UpdRes.throws⟩ ["A"] (by decide) rfl (by decide)
    exact h

/-! ## Entity-Component Store (claims C8, C9, C10)

`addComponent` / `removeComponent` / `removeAllComponents` and the read
accessors (part_001 lines 1120-1240).  JavaScript `Map`s are modelled as
insertion-ordered association lists with unique keys (`Map.set` replaces in
place or appends; `Map.delete` removes).  For these store operations a
component is characterised by the construction result of its factory; the
`data`/`aux` fields let factories build distinguishable instances. -/

/-- A constructed component instance as stored by the Entity-Component Store. -/
structure GComponent where
  data : Nat
  aux : Nat
deriving DecidableEq, Repr

/-- A component factory: `new ComponentClass(entityId, data)`, which may
throw. -/
abbrev Factory := EntityId → Nat → Except Unit GComponent

/-- Bus notifications emitted by the store (part_001 lines 1149-1153 and
1188-1192): `EventBus.Events.COMPONENT_ADDED` / `COMPONENT_REMOVED`, carrying
`entityId`, `componentName` and the component reference. -/
inductive BusEvent
  | componentAdded (e : EntityId) (name : String) (c : GComponent)
  | componentRemoved (e : EntityId) (name : String) (c : GComponent)
deriving DecidableEq, Repr

/-- `Map.get`. -/
def mapGet {κ β : Type} [DecidableEq κ] : List (κ × β) → κ → Option β
  | [], _ => none
  | (k, v) :: r, q => if k = q then some v else mapGet r q

/-- `Map.set`: replace the existing entry in place or append a new one. -/
def mapSet {κ β : Type} [DecidableEq κ] : List (κ × β) → κ → β → List (κ × β)
  | [], q, v => [(q, v)]
  | (k, w) :: r, q, v => if k = q then (q, v) :: r else (k, w) :: mapSet r q v

/-- `Map.delete`. -/
def mapDel {κ β : Type} [DecidableEq κ] : List (κ × β) → κ → List (κ × β)
  | [], _ => []
  | (k, w) :: r, q => if k = q then r else (k, w) :: mapDel r q

/-- One entity's component map (`componentName → component`). -/
abbrev CompMap := List (String × GComponent)

/-- `this.entityComponents`: entity id → component map. -/
abbrev Store := List (EntityId × CompMap)

/-- `this.componentTypes`: component name → factory. -/
abbrev Registry := List (String × Factory)

/-- Result of `addComponent`. -/
inductive AddOutcome
  | ok (c : GComponent) (constructed : Bool)
  | unknownType
  | ctorThrew
deriving DecidableEq, Repr

structure AddResult where
  res : AddOutcome
  store : Store
  events : List BusEvent
deriving DecidableEq, Repr

/-- `ComponentSystem.addComponent` (part_001 lines 1120-1157), with the
source's mutation order: the unknown-type throw happens before any mutation
(line 1123); the entity's empty component map is created before the duplicate
check and before the constructor runs (lines 1127-1129), so a constructor
throw leaves that map behind; the duplicate path returns the existing
instance with a warning and emits nothing (lines 1134-1137); only the
constructing path stores the instance and emits `COMPONENT_ADDED`. -/
def addComponent (reg : Registry) (st : Store) (e : EntityId) (t : String)
    (d : Nat) : AddResult :=
  match mapGet reg t with
  | none => ⟨.unknownType, st, []⟩
  | some f =>
    let st1 := if (mapGet st e).isSome then st else mapSet st e []
    let ec := (mapGet st1 e).getD []
    match mapGet ec t with
    | some c => ⟨.ok c false, st1, []⟩
    | none =>
      match f e d with
      | .error _ => ⟨.ctorThrew, st1, []⟩
      | .ok c => ⟨.ok c true, mapSet st1 e (mapSet ec t c), [.componentAdded e t c]⟩

structure RemResult where
  removed : Bool
  store : Store
  events : List BusEvent
deriving DecidableEq, Repr

/-- `ComponentSystem.removeComponent` (part_001 lines 1162-1196): absent
entity or component → warn and return `false`, no event; otherwise call the
instance's `destroy()` (no store effect), delete it, prune the entity's map
when it became empty, and emit `COMPONENT_REMOVED`. -/
def removeComponent (st : Store) (e : EntityId) (t : String) : RemResult :=
  match mapGet st e with
  | none => ⟨false, st, []⟩
  | some ec =>
    match mapGet ec t with
    | none => ⟨false, st, []⟩
    | some c =>
      let ec1 := mapDel ec t
      let st1 := if ec1.isEmpty then mapDel st e else mapSet st e ec1
      ⟨true, st1, [.componentRemoved e t c]⟩

/-- `ComponentSystem.getComponent` (part_001 lines 1201-1207). -/
def getComponent (st : Store) (e : EntityId) (t : String) : Option GComponent :=
  match mapGet st e with
  | none => none
  | some ec => mapGet ec t

/-- `ComponentSystem.getComponents` (part_001 lines 1212-1218). -/
def getComponents (st : Store) (e : EntityId) : List GComponent :=
  ((mapGet st e).getD []).map Prod.snd

/-- `ComponentSystem.hasComponent` (part_001 lines 1223-1226). -/
def hasComponent (st : Store) (e : EntityId) (t : String) : Bool :=
  match mapGet st e with
  | none => false
  | some ec => (mapGet ec t).isSome

/-- `ComponentSystem.removeAllComponents` (part_001 lines 1231-1240): snapshot
the entity's component names, then `removeComponent` each in order. -/
def removeAllComponents (st : Store) (e : EntityId) : Store × List BusEvent :=
  let names := ((mapGet st e).getD []).map Prod.fst
  names.foldl (fun acc t =>
    let r := removeComponent acc.1 e t
    (r.store, acc.2 ++ r.events)) (st, [])

/-- A sequence of store operations, as invoked by callers of the store. -/
inductive StoreOp
  | add (e : EntityId) (t : String) (d : Nat)
  | rem (e : EntityId) (t : String)
  | remAll (e : EntityId)

/-- Apply one store operation to a store. -/
def execOp (reg : Registry) (st : Store) : StoreOp → Store
  | .add e t d => (addComponent reg st e t d).store
  | .rem e t => (removeComponent st e t).store
  | .remAll e => (removeAllComponents st e).1

/-- Apply a sequence of operations starting from `st`. -/
def execOpsFrom (reg : Registry) (st : Store) : List StoreOp → Store
  | [] => st
  | op :: rest => execOpsFrom reg (execOp reg st op) rest

/-- All stores reachable from the initial empty store. -/
def execOps (reg : Registry) (ops : List StoreOp) : Store :=
  execOpsFrom reg [] ops

/-! ### Association-list lemmas (JS `Map` semantics) -/

theorem mapGet_mapSet_self {κ β : Type} [DecidableEq κ] (l : List (κ × β)) (k : κ) (v : β) :
    mapGet (mapSet l k v) k = some v := by
  induction l with
  | nil => simp [mapSet, mapGet]
  | cons p r ih =>
    obtain ⟨k0, w⟩ := p
    by_cases h : k0 = k
    · simp [mapSet, mapGet, h]
    · simp [mapSet, mapGet, h, ih]

theorem mapGet_some_mem {κ β : Type} [DecidableEq κ] {l : List (κ × β)} {k : κ} {v : β}
    (h : mapGet l k = some v) : (k, v) ∈ l := by
  induction l with
  | nil => simp [mapGet] at h
  | cons p r ih =>
    obtain ⟨k0, w⟩ := p
    by_cases hk : k0 = k
    · subst hk
      simp [mapGet] at h
      subst h
      exact List.mem_cons_self _ _
    · rw [mapGet, if_neg hk] at h
      exact List.mem_cons_of_mem _ (ih h)

theorem mapGet_eq_none_iff {κ β : Type} [DecidableEq κ] {l : List (κ × β)} {k : κ} :
    mapGet l k = none ↔ k ∉ l.map Prod.fst := by
  induction l with
  | nil => simp [mapGet]
  | cons p r ih =>
    obtain ⟨k0, w⟩ := p
    by_cases hk : k0 = k
    · subst hk; simp [mapGet]
    · simp [mapGet, hk, ih, Ne.symm hk]

theorem keys_mapSet {κ β : Type} [DecidableEq κ] (l : List (κ × β)) (k : κ) (v : β) :
    (mapSet l k v).map Prod.fst =
      if k ∈ l.map Prod.fst then l.map Prod.fst else l.map Prod.fst ++ [k] := by
  induction l with
  | nil => simp [mapSet]
  | cons p r ih =>
    obtain ⟨k0, w⟩ := p
    by_cases hk : k0 = k
    · subst hk; simp [mapSet]
    · simp only [mapSet, if_neg hk, List.map_cons, ih]
      by_cases hm : k ∈ r.map Prod.fst
      · simp [hm, Ne.symm hk]
      · simp [hm, Ne.symm hk]

theorem keysNodup_mapSet {κ β : Type} [DecidableEq κ] {l : List (κ × β)} (k : κ) (v : β)
    (h : (l.map Prod.fst).Nodup) : ((mapSet l k v).map Prod.fst).Nodup := by
  rw [keys_mapSet]
  by_cases hm : k ∈ l.map Prod.fst
  · simpa [hm] using h
  · rw [if_neg hm]
    exact List.Nodup.append h (List.nodup_singleton k) (by simpa using hm)

theorem mem_mapSet_weak {κ β : Type} [DecidableEq κ] {l : List (κ × β)} {k : κ} {v : β}
    {p : κ × β} (h : p ∈ mapSet l k v) : p = (k, v) ∨ p ∈ l := by
  induction l with
  | nil => simp [mapSet] at h; simp [h]
  | cons q r ih =>
    obtain ⟨k0, w⟩ := q
    by_cases hk : k0 = k
    · subst hk
      simp only [mapSet, if_pos rfl] at h
      rcases List.mem_cons.mp h with h1 | h1
      · exact Or.inl h1
      · exact Or.inr (List.mem_cons_of_mem _ h1)
    · rw [mapSet, if_neg hk] at h
      rcases List.mem_cons.mp h with h1 | h1
      · exact Or.inr (h1 ▸ List.mem_cons_self _ _)
      · rcases ih h1 with h2 | h2
        · exact Or.inl h2
        · exact Or.inr (List.mem_cons_of_mem _ h2)

theorem mem_mapSet_strong {κ β : Type} [DecidableEq κ] {l : List (κ × β)} {k : κ} {v : β}
    {p : κ × β} (hnd : (l.map Prod.fst).Nodup) (h : p ∈ mapSet l k v) :
    p = (k, v) ∨ (p ∈ l ∧ p.1 ≠ k) := by
  induction l with
  | nil => simp [mapSet] at h; simp [h]
  | cons q r ih =>
    obtain ⟨k0, w⟩ := q
    simp only [List.map_cons, List.nodup_cons] at hnd
    by_cases hk : k0 = k
    · subst hk
      simp only [mapSet, if_pos rfl] at h
      rcases List.mem_cons.mp h with h1 | h1
      · exact Or.inl h1
      · refine Or.inr ⟨List.mem_cons_of_mem _ h1, ?_⟩
        intro hpk
        exact hnd.1 (hpk ▸ (List.mem_map_of_mem Prod.fst h1))
    · rw [mapSet, if_neg hk] at h
      rcases List.mem_cons.mp h with h1 | h1
      · exact Or.inr ⟨h1 ▸ List.mem_cons_self _ _, by simp [h1, hk]⟩
      · rcases ih hnd.2 h1 with h2 | h2
        · exact Or.inl h2
        · exact Or.inr ⟨List.mem_cons_of_mem _ h2.1, h2.2⟩

theorem mapSet_ne_nil {κ β : Type} [DecidableEq κ] (l : List (κ × β)) (k : κ) (v : β) :
    mapSet l k v ≠ [] := by
  cases l with
  | nil => simp [mapSet]
  | cons q r =>
    obtain ⟨k0, w⟩ := q
    by_cases hk : k0 = k <;> simp [mapSet, hk]

theorem mapDel_sublist {κ β : Type} [DecidableEq κ] (l : List (κ × β)) (k : κ) :
    (mapDel l k).Sublist l := by
  induction l with
  | nil => simp [mapDel]
  | cons q r ih =>
    obtain ⟨k0, w⟩ := q
    by_cases hk : k0 = k
    · rw [mapDel, if_pos hk]
      exact (List.sublist_cons_self _ _)
    · rw [mapDel, if_neg hk]
      exact ih.cons₂ _

/-! ### Store invariants -/

/-- Key uniqueness: the outer entity map and every entity's component map
have no duplicate keys (the `Map` representation invariant). -/
def StoreKeysInv (st : Store) : Prop :=
  (st.map Prod.fst).Nodup ∧ ∀ p ∈ st, (p.2.map Prod.fst).Nodup

/-- No entity key maps to an empty component map. -/
def StoreNonempty (st : Store) : Prop := ∀ p ∈ st, p.2 ≠ []

theorem storeKeysInv_mapSet_inner (st1 : Store) (ec : CompMap) (e : EntityId)
    (t : String) (c : GComponent) (h1 : StoreKeysInv st1)
    (hecnd : (ec.map Prod.fst).Nodup) :
    StoreKeysInv (mapSet st1 e (mapSet ec t c)) := by
  refine ⟨keysNodup_mapSet e _ h1.1, ?_⟩
  intro p hp
  rcases mem_mapSet_weak hp with rfl | hmem
  · exact keysNodup_mapSet t c hecnd
  · exact h1.2 p hmem

theorem storeKeysInv_ensure (st : Store) (e : EntityId) (h : StoreKeysInv st) :
    StoreKeysInv (if (mapGet st e).isSome then st else mapSet st e []) := by
  by_cases hE : (mapGet st e).isSome
  · simpa [hE] using h
  · simp only [hE, Bool.false_eq_true, if_false]
    refine ⟨keysNodup_mapSet e [] h.1, ?_⟩
    intro p hp
    rcases mem_mapSet_weak hp with rfl | hmem
    · simp
    · exact h.2 p hmem

theorem storeKeysInv_getD_nodup (st1 : Store) (e : EntityId) (h1 : StoreKeysInv st1) :
    ((((mapGet st1 e).getD []).map Prod.fst)).Nodup := by
  cases hg : mapGet st1 e with
  | none => simp
  | some m =>
    simp only [Option.getD_some]
    exact h1.2 (e, m) (mapGet_some_mem hg)

theorem storeKeysInv_add (reg : Registry) (st : Store) (e : EntityId) (t : String)
    (d : Nat) (h : StoreKeysInv st) : StoreKeysInv (addComponent reg st e t d).store := by
  unfold addComponent
  cases hreg : mapGet reg t with
  | none => exact h
  | some f =>
    dsimp only
    have h1 := storeKeysInv_ensure st e h
    have hecnd := storeKeysInv_getD_nodup _ e h1
    cases hget : mapGet ((mapGet (if (mapGet st e).isSome then st else mapSet st e []) e).getD []) t with
    | some c => simpa [hget] using h1
    | none =>
      cases hf : f e d with
      | error x => simpa [hget, hf] using h1
      | ok c =>
        simp only [hget, hf]
        exact storeKeysInv_mapSet_inner _ _ e t c h1 hecnd

theorem storeKeysInv_rem (st : Store) (e : EntityId) (t : String)
    (h : StoreKeysInv st) : StoreKeysInv (removeComponent st e t).store := by
  unfold removeComponent
  cases hE : mapGet st e with
  | none => exact h
  | some ec =>
    dsimp only
    cases hget : mapGet ec t with
    | none => exact h
    | some c =>
      dsimp only
      have hecnd : (ec.map Prod.fst).Nodup := h.2 (e, ec) (mapGet_some_mem hE)
      by_cases hemp : (mapDel ec t).isEmpty
      · simp only [hemp, if_true]
        refine ⟨((mapDel_sublist st e).map Prod.fst).nodup h.1, ?_⟩
        intro p hp
        exact h.2 p ((mapDel_sublist st e).subset hp)
      · simp only [hemp, Bool.false_eq_true, if_false]
        refine ⟨keysNodup_mapSet e _ h.1, ?_⟩
        intro p hp
        rcases mem_mapSet_weak hp with rfl | hmem
        · exact (((mapDel_sublist ec t).map Prod.fst).nodup hecnd)
        · exact h.2 p hmem

theorem storeKeysInv_remAllFold (e : EntityId) (names : List String) :
    ∀ (st : Store) (evs : List BusEvent), StoreKeysInv st →
      StoreKeysInv (names.foldl (fun acc t =>
        let r := removeComponent acc.1 e t
        (r.store, acc.2 ++ r.events)) (st, evs)).1 := by
  induction names with
  | nil => intro st evs h; exact h
  | cons t rest ih =>
    intro st evs h
    exact ih _ _ (storeKeysInv_rem st e t h)

theorem storeKeysInv_remAll (st : Store) (e : EntityId) (h : StoreKeysInv st) :
    StoreKeysInv (removeAllComponents st e).1 := by
  unfold removeAllComponents
  exact storeKeysInv_remAllFold e _ st [] h

theorem storeKeysInv_execOp (reg : Registry) (st : Store) (op : StoreOp)
    (h : StoreKeysInv st) : StoreKeysInv (execOp reg st op) := by
  cases op with
  | add e t d => exact storeKeysInv_add reg st e t d h
  | rem e t => exact storeKeysInv_rem st e t h
  | remAll e => exact storeKeysInv_remAll st e h

theorem storeKeysInv_execOps (reg : Registry) (ops : List StoreOp) :
    StoreKeysInv (execOps reg ops) := by
  have hstep : ∀ (l : List StoreOp) (st : Store), StoreKeysInv st →
      StoreKeysInv (execOpsFrom reg st l) := by
    intro l
    induction l with
    | nil => intro st h; exact h
    | cons op rest ih => intro st h; exact ih _ (storeKeysInv_execOp reg st op h)
  exact hstep ops [] ⟨List.nodup_nil, by simp⟩

/-- A registry whose factories never throw. -/
def TotalRegistry (reg : Registry) : Prop :=
  ∀ q ∈ reg, ∀ (e : EntityId) (d : Nat), ∃ c, q.2 e d = Except.ok c

theorem storeNonempty_add (reg : Registry) (st : Store) (e : EntityId) (t : String)
    (d : Nat) (hreg : TotalRegistry reg) (hk : StoreKeysInv st) (h : StoreNonempty st) :
    StoreNonempty (addComponent reg st e t d).store := by
  unfold addComponent
  cases hr : mapGet reg t with
  | none => exact h
  | some f =>
    dsimp only
    have h1 : StoreKeysInv (if (mapGet st e).isSome then st else mapSet st e []) :=
      storeKeysInv_ensure st e hk
    cases hget : mapGet ((mapGet (if (mapGet st e).isSome then st else mapSet st e []) e).getD []) t with
    | some c =>
      -- the duplicate path: the entity already had component `t`, so it existed
      -- before, and the ensure step did not change the store
      by_cases hE : (mapGet st e).isSome
      · simpa [hget, hE] using h
      · exfalso
        rw [if_neg hE] at hget
        rw [mapGet_mapSet_self] at hget
        simp [mapGet] at hget
    | none =>
      cases hfd : f e d with
      | error x =>
        exfalso
        obtain ⟨c, hc⟩ := hreg (t, f) (mapGet_some_mem hr) e d
        simp only at hc
        rw [hc] at hfd
        exact Except.noConfusion hfd
      | ok c =>
        simp only [hget, hfd]
        intro p hp
        rcases mem_mapSet_strong h1.1 hp with rfl | ⟨hmem, hne⟩
        · exact mapSet_ne_nil _ t c
        · by_cases hE : (mapGet st e).isSome
          · rw [if_pos hE] at hmem
            exact h p hmem
          · rw [if_neg hE] at hmem
            rcases mem_mapSet_weak hmem with rfl | hmem2
            · exact absurd rfl hne
            · exact h p hmem2

theorem storeNonempty_rem (st : Store) (e : EntityId) (t : String)
    (h : StoreNonempty st) : StoreNonempty (removeComponent st e t).store := by
  unfold removeComponent
  cases hE : mapGet st e with
  | none => exact h
  | some ec =>
    dsimp only
    cases hget : mapGet ec t with
    | none => exact h
    | some c =>
      dsimp only
      by_cases hemp : (mapDel ec t).isEmpty
      · simp only [hemp, if_true]
        intro p hp
        exact h p ((mapDel_sublist st e).subset hp)
      · simp only [hemp, Bool.false_eq_true, if_false]
        intro p hp
        rcases mem_mapSet_weak hp with rfl | hmem
        · simpa [List.isEmpty_iff] using hemp
        · exact h p hmem

theorem storeNonempty_remAllFold (e : EntityId) (names : List String) :
    ∀ (st : Store) (evs : List BusEvent), StoreNonempty st →
      StoreNonempty (names.foldl (fun acc t =>
        let r := removeComponent acc.1 e t
        (r.store, acc.2 ++ r.events)) (st, evs)).1 := by
  induction names with
  | nil => intro st evs h; exact h
  | cons t rest ih =>
    intro st evs h
    exact ih _ _ (storeNonempty_rem st e t h)

theorem storeNonempty_remAll (st : Store) (e : EntityId) (h : StoreNonempty st) :
    StoreNonempty (removeAllComponents st e).1 := by
  unfold removeAllComponents
  exact storeNonempty_remAllFold e _ st [] h

theorem storeNonempty_execOps (reg : Registry) (ops : List StoreOp)
    (hreg : TotalRegistry reg) : StoreNonempty (execOps reg ops) := by
  have hstep : ∀ (l : List StoreOp) (st : Store), StoreKeysInv st → StoreNonempty st →
      StoreNonempty (execOpsFrom reg st l) := by
    intro l
    induction l with
    | nil => intro st _ h; exact h
    | cons op rest ih =>
      intro st hk h
      refine ih _ (storeKeysInv_execOp reg st op hk) ?_
      cases op with
      | add e t d => exact storeNonempty_add reg st e t d hreg hk h
      | rem e t => exact storeNonempty_rem st e t h
      | remAll e => exact storeNonempty_remAll st e h
  exact hstep ops [] ⟨List.nodup_nil, by simp⟩ (by simp [StoreNonempty])

/-! ### Behaviour of the add/remove paths -/

theorem addComponent_dup (reg : Registry) (st : Store) (e : EntityId) (t : String)
    (d : Nat) (f : Factory) (c : GComponent)
    (hreg : mapGet reg t = some f) (hgc : getComponent st e t = some c) :
    addComponent reg st e t d = ⟨.ok c false, st, []⟩ := by
  unfold getComponent at hgc
  cases hE : mapGet st e with
  | none => rw [hE] at hgc; exact Option.noConfusion hgc
  | some m =>
    rw [hE] at hgc
    have hgc2 : mapGet m t = some c := hgc
    unfold addComponent
    rw [hreg]
    simp only [hE, Option.isSome_some, if_true, Option.getD_some, hgc2]

theorem addComponent_fresh (reg : Registry) (st : Store) (e : EntityId) (t : String)
    (d : Nat) (f : Factory) (c : GComponent)
    (hreg : mapGet reg t = some f) (hf : f e d = Except.ok c)
    (hnc : hasComponent st e t = false) :
    (addComponent reg st e t d).res = .ok c true ∧
    (addComponent reg st e t d).events = [.componentAdded e t c] ∧
    getComponent (addComponent reg st e t d).store e t = some c := by
  unfold addComponent
  rw [hreg]
  dsimp only
  cases hE : mapGet st e with
  | none =>
    simp only [hE, Option.isSome_none, Bool.false_eq_true, if_false,
      mapGet_mapSet_self, Option.getD_some]
    simp only [mapGet, hf]
    refine ⟨trivial, trivial, ?_⟩
    unfold getComponent
    rw [mapGet_mapSet_self]
    exact mapGet_mapSet_self _ t c
  | some m =>
    have hmt : mapGet m t = none := by
      unfold hasComponent at hnc
      rw [hE] at hnc
      have hnc2 : (mapGet m t).isSome = false := hnc
      cases hmg : mapGet m t with
      | none => rfl
      | some c0 => rw [hmg] at hnc2; simp at hnc2
    simp only [hE, Option.isSome_some, if_true, Option.getD_some, hmt, hf]
    refine ⟨trivial, trivial, ?_⟩
    unfold getComponent
    rw [mapGet_mapSet_self]
    exact mapGet_mapSet_self m t c

theorem addComponent_ctor_throw (reg : Registry) (st : Store) (e : EntityId)
    (t : String) (d : Nat) (f : Factory) (x : Unit)
    (hreg : mapGet reg t = some f) (hf : f e d = Except.error x)
    (hnc : hasComponent st e t = false) :
    (addComponent reg st e t d).res = .ctorThrew ∧
    (addComponent reg st e t d).events = [] := by
  unfold addComponent
  rw [hreg]
  dsimp only
  cases hE : mapGet st e with
  | none =>
    simp only [hE, Option.isSome_none, Bool.false_eq_true, if_false,
      mapGet_mapSet_self, Option.getD_some]
    simp only [mapGet, hf]
    exact ⟨trivial, trivial⟩
  | some m =>
    have hmt : mapGet m t = none := by
      unfold hasComponent at hnc
      rw [hE] at hnc
      have hnc2 : (mapGet m t).isSome = false := hnc
      cases hmg : mapGet m t with
      | none => rfl
      | some c0 => rw [hmg] at hnc2; simp at hnc2
    simp only [hE, Option.isSome_some, if_true, Option.getD_some, hmt, hf]
    exact ⟨trivial, trivial⟩

/-! ### Theorems for claims C8, C9, C10 -/

/-- Claim C8: (idempotent add) for a registered type whose constructor
succeeds on `d1` and an entity that does not yet hold that type, the first
`addComponent` constructs and stores an instance, and a second `addComponent`
with any `d2` does not throw, performs no second construction
(`constructed = false`), returns exactly the instance created by the first
call, leaves the store unchanged (so the stored data still reflects `d1`),
and emits nothing.  Moreover, after any sequence of store operations, an
entity holds at most one component per type name. -/
theorem c8_idempotent_add :
    (∀ (reg : Registry) (st : Store) (e : EntityId) (t : String) (d1 d2 : Nat)
       (f : Factory) (c1 : GComponent),
      mapGet reg t = some f → f e d1 = Except.ok c1 → hasComponent st e t = false →
      (addComponent reg st e t d1).res = .ok c1 true ∧
      addComponent reg (addComponent reg st e t d1).store e t d2 =
        ⟨.ok c1 false, (addComponent reg st e t d1).store, []⟩ ∧
      getComponent (addComponent reg st e t d1).store e t = some c1) ∧
    (∀ (reg : Registry) (ops : List StoreOp) (e : EntityId) (t : String),
      (((mapGet (execOps reg ops) e).getD []).map Prod.fst).count t ≤ 1) := by
  constructor
  · intro reg st e t d1 d2 f c1 hreg hf hnc
    obtain ⟨hres, hev, hgc⟩ := addComponent_fresh reg st e t d1 f c1 hreg hf hnc
    exact ⟨hres, addComponent_dup reg _ e t d2 f c1 hreg hgc, hgc⟩
  · intro reg ops e t
    cases hg : mapGet (execOps reg ops) e with
    | none => simp
    | some m =>
      have hnd : (m.map Prod.fst).Nodup :=
        (storeKeysInv_execOps reg ops).2 (e, m) (mapGet_some_mem hg)
      simpa using List.nodup_iff_count_le_one.mp hnd t

/-- A concrete registry whose factory records the construction data. -/
def regW : Registry := [("T", fun e d => Except.ok ⟨d, e⟩)]

/-- Witness for `c8_idempotent_add` at concrete inputs. -/
theorem c8_idempotent_add_witness :
    (addComponent regW [] 1 "T" 5).res = .ok ⟨5, 1⟩ true ∧
    addComponent regW (addComponent regW [] 1 "T" 5).store 1 "T" 9 =
      ⟨.ok ⟨5, 1⟩ false, (addComponent regW [] 1 "T" 5).store, []⟩ ∧
    getComponent (addComponent regW [] 1 "T" 5).store 1 "T" = some ⟨5, 1⟩ ∧
    (((mapGet (execOps regW [.add 1 "T" 5, .add 1 "T" 9]) 1).getD []).map Prod.fst).count "T" ≤ 1 := by
  obtain ⟨h1, h2, h3⟩ := c8_idempotent_add.1 regW [] 1 "T" 5 9 _ ⟨5, 1⟩ rfl rfl rfl
  exact ⟨h1, h2, h3, c8_idempotent_add.2 regW [.add 1 "T" 5, .add 1 "T" 9] 1 "T"⟩

/-- A store on which entity 1 already holds a `"T"` component. -/
def dupStore : Store := [(1, [("T", ⟨5, 0⟩)])]

/-- Claim C9, as stated, is false: when `addComponent` finds the component
already present, it returns the existing instance early and emits no bus
notification at all (and an absent `removeComponent` likewise emits
nothing). -/
theorem c9_counterexample :
    hasComponent dupStore 1 "T" = true ∧
    (addComponent regW dupStore 1 "T" 9).res = .ok ⟨5, 0⟩ false ∧
    (addComponent regW dupStore 1 "T" 9).events = [] ∧
    (removeComponent [] 1 "T").events = [] := by
  refine ⟨by decide, by decide, by decide, by decide⟩

/-- Claim C9 (amended): an `addComponent` call that actually constructs and
stores a new component emits exactly one `COMPONENT_ADDED` notification
carrying the entity id, the type name and the instance, and a
`removeComponent` call that actually removes a present component emits exactly
one `COMPONENT_REMOVED` notification; but the duplicate-add path returns the
existing instance without emitting, and the unknown-type, constructor-throw
and absent-remove paths emit nothing. -/
theorem c9_amended :
    (∀ (reg : Registry) (st : Store) (e : EntityId) (t : String) (d : Nat)
       (f : Factory) (c : GComponent),
      mapGet reg t = some f → f e d = Except.ok c → hasComponent st e t = false →
      (addComponent reg st e t d).events = [.componentAdded e t c]) ∧
    (∀ (reg : Registry) (st : Store) (e : EntityId) (t : String) (d : Nat)
       (f : Factory) (c : GComponent),
      mapGet reg t = some f → getComponent st e t = some c →
      (addComponent reg st e t d).events = []) ∧
    (∀ (reg : Registry) (st : Store) (e : EntityId) (t : String) (d : Nat),
      mapGet reg t = none → (addComponent reg st e t d).events = []) ∧
    (∀ (reg : Registry) (st : Store) (e : EntityId) (t : String) (d : Nat)
       (f : Factory) (x : Unit),
      mapGet reg t = some f → f e d = Except.error x → hasComponent st e t = false →
      (addComponent reg st e t d).events = []) ∧
    (∀ (st : Store) (e : EntityId) (t : String) (m : CompMap) (c : GComponent),
      mapGet st e = some m → mapGet m t = some c →
      (removeComponent st e t).events = [.componentRemoved e t c] ∧
      (removeComponent st e t).removed = true) ∧
    (∀ (st : Store) (e : EntityId) (t : String),
      hasComponent st e t = false →
      (removeComponent st e t).events = [] ∧ (removeComponent st e t).removed = false) := by
  refine ⟨?_, ?_, ?_, ?_, ?_, ?_⟩
  · intro reg st e t d f c hreg hf hnc
    exact (addComponent_fresh reg st e t d f c hreg hf hnc).2.1
  · intro reg st e t d f c hreg hgc
    rw [addComponent_dup reg st e t d f c hreg hgc]
  · intro reg st e t d hreg
    unfold addComponent
    rw [hreg]
  · intro reg st e t d f x hreg hf hnc
    exact (addComponent_ctor_throw reg st e t d f x hreg hf hnc).2
  · intro st e t m c hE hmt
    constructor <;> simp [removeComponent, hE, hmt]
  · intro st e t hnc
    unfold hasComponent at hnc
    cases hE : mapGet st e with
    | none => constructor <;> simp [removeComponent, hE]
    | some m =>
      rw [hE] at hnc
      have hnc2 : (mapGet m t).isSome = false := hnc
      cases hmt : mapGet m t with
      | none => constructor <;> simp [removeComponent, hE, hmt]
      | some c0 => rw [hmt] at hnc2; simp at hnc2

/-- Witness for `c9_amended` at concrete inputs. -/
theorem c9_amended_witness :
    (addComponent regW [] 1 "T" 5).events = [.componentAdded 1 "T" ⟨5, 1⟩] ∧
    (addComponent regW dupStore 1 "T" 9).events = [] ∧
    (removeComponent dupStore 1 "T").events = [.componentRemoved 1 "T" ⟨5, 0⟩] ∧
    (removeComponent [] 1 "T").events = [] := by
  refine ⟨?_, ?_, ?_, ?_⟩
  · exact c9_amended.1 regW [] 1 "T" 5 _ ⟨5, 1⟩ rfl rfl rfl
  · exact c9_amended.2.1 regW dupStore 1 "T" 9 _ ⟨5, 0⟩ rfl (by decide)
  · exact (c9_amended.2.2.2.2.1 dupStore 1 "T" [("T", ⟨5, 0⟩)] ⟨5, 0⟩ (by decide) (by decide)).1
  · exact (c9_amended.2.2.2.2.2 [] 1 "T" rfl).1

/-- A registry whose `"T"` factory always throws. -/
def regThrow : Registry := [("T", fun _ _ => Except.error ())]

/-- Claim C10, as stated, is false: `addComponent` creates the entity's empty
component map before running the constructor, and a constructor throw
propagates out without rolling that back, so the store reachable by a single
`addComponent` with a throwing constructor retains entity 1 with an empty
component map. -/
theorem c10_counterexample :
    execOps regThrow [StoreOp.add 1 "T" 0] = [(1, [])] ∧
    (1, ([] : CompMap)) ∈ execOps regThrow [StoreOp.add 1 "T" 0] := by
  refine ⟨by decide, by decide⟩

/-- Claim C10 (amended): in every store reachable by any sequence of
`addComponent`, `removeComponent` and `removeAllComponents` calls in which no
component constructor throws, every entity id present in the store maps to a
non-empty component map; the invariant can only be broken by a constructor
throw inside `addComponent` on a fresh entity (which leaves that entity with
an empty map, as the counterexample shows). -/
theorem c10_amended (reg : Registry) (ops : List StoreOp)
    (hreg : TotalRegistry reg) : ∀ p ∈ execOps reg ops, p.2 ≠ [] :=
  storeNonempty_execOps reg ops hreg

/-- Witness for `c10_amended` at concrete inputs. -/
theorem c10_amended_witness : ([("T", (⟨5, 1⟩ : GComponent))] : CompMap) ≠ [] := by
  have h := c10_amended regW [StoreOp.add 1 "T" 5]
    (by
      intro q hq e d
      simp only [regW, List.mem_singleton] at hq
      subst hq
      exact ⟨⟨d, e⟩, rfl⟩)
  exact h (1, [("T", ⟨5, 1⟩)]) (by decide)
